import Mathlib

/-!
Shallow embedding of `src/app.py` (RI_Call_Logs): the call-log generator
`generate_all_call_data` and the PDF renderer `create_pdf_bytes` / `print_row`.

Time is modelled as rational seconds since a fixed epoch; a calendar date is
its day number, so midnight of day `d` is the instant `d * 86400`.  The source
stores a record's timestamp as a formatted string (`strftime`) of the
`datetime` value; the embedding keeps the underlying instant as a rational.

The calls into Python's `random` module are modelled by an `Oracle` of draw
functions (indexed by day index, phone index and attempt number), constrained
by `Oracle.Valid` to exactly the ranges the corresponding `random` calls
guarantee: `random.randint(300000, 400000)`, `random.shuffle` (a permutation),
`random.choice` (membership), `random.uniform(-jitter_max, jitter_max)`
(interval bounds) and `random.randint(1, 14)`.
-/

attribute [local semireducible] Rat.mul Rat.add Rat.sub Rat.inv

/-- Python's `phone.strip()`: drop whitespace from both ends of the string.
(`String.trim` is not used because its substring-based definition does not
reduce; this structural version does.) -/
def pyStrip (s : String) : String :=
  ⟨((s.data.dropWhile Char.isWhitespace).reverse.dropWhile Char.isWhitespace).reverse⟩

/-- One call-event record, the dictionary appended in `generate_all_call_data`
(keys `Date Time`, `Attempt`, `Lead ID`, `Status`, `Length (s)`, `Phone`). -/
structure CallRecord where
  dateTime : ℚ
  attempt : ℕ
  leadId : ℤ
  status : String
  length : ℤ
  phone : String
  deriving DecidableEq, Repr

/-- The draws the generator takes from Python's global `random`: one lead id
and one shuffle per (day index, phone index), and per-slot pool choices,
jitters and durations. -/
structure Oracle where
  leadId : ℕ → ℕ → ℤ
  shuffle : ℕ → ℕ → List String → List String
  choice : ℕ → ℕ → ℕ → String
  jitter : ℕ → ℕ → ℕ → ℚ
  duration : ℕ → ℕ → ℕ → ℤ

/-- `remaining_statuses_pool = ["Busy", "Not Answered", "Others"]` (line 18). -/
def remaining_statuses_pool : List String := ["Busy", "Not Answered", "Others"]

/-- The guarantees Python's `random` gives for each draw of the generator:
`randint(300000, 400000)` for lead ids, `shuffle` permutes, `choice` picks a
pool member, `uniform(-jitter_max, jitter_max)` stays in that interval and
`randint(1, 14)` for durations of answered calls. -/
def Oracle.Valid (o : Oracle) (jitter_max : ℚ) : Prop :=
  (∀ di pi, 300000 ≤ o.leadId di pi ∧ o.leadId di pi ≤ 400000) ∧
  (∀ di pi l, (o.shuffle di pi l).Perm l) ∧
  (∀ di pi k, o.choice di pi k ∈ remaining_statuses_pool) ∧
  (∀ di pi k, -jitter_max ≤ o.jitter di pi k ∧ o.jitter di pi k ≤ jitter_max) ∧
  (∀ di pi k, 1 ≤ o.duration di pi k ∧ o.duration di pi k ≤ 14)

/-- `total_business_seconds = (business_end - business_start) * 3600`
(lines 12-13). -/
def total_business_seconds (business_start business_end : ℤ) : ℚ :=
  ((business_end - business_start : ℤ) : ℚ) * 3600

/-- `uniform_interval_seconds = total_business_seconds / total_calls_per_day`
(line 16; true division, hence a rational). -/
def uniform_interval_seconds (business_start business_end : ℤ)
    (total_calls_per_day : ℕ) : ℚ :=
  total_business_seconds business_start business_end / (total_calls_per_day : ℚ)

/-- `day_start_time = current_date + timedelta(hours=business_start)` (line 29),
with `current_date` the midnight of day `d`. -/
def dayStartTime (d business_start : ℤ) : ℚ :=
  (d : ℚ) * 86400 + (business_start : ℚ) * 3600

/-- `day_end_time = current_date + timedelta(hours=business_end)` (line 30). -/
def dayEndTime (d business_end : ℤ) : ℚ :=
  (d : ℚ) * 86400 + (business_end : ℚ) * 3600

/-- The day-status multiset before shuffling (lines 40-45):
`min(avg_answered_total, total_calls_per_day)` copies of `"Answered"` followed
by pool choices for the remaining slots. -/
def daily_statuses (total ans : ℕ) (choice : ℕ → String) : List String :=
  List.replicate (min ans total) "Answered" ++
    (List.range (total - min ans total)).map choice

/-- The `for call_status in daily_statuses` loop (lines 50-69): advance the
cursor by `uniform_interval_seconds + jitter`, break once the cursor reaches
`day_end_time`, otherwise emit a record and increment `attempt`.  The jitter
and duration draws are indexed by the current attempt counter, which counts
the processed slots. -/
def runSlots (lead : ℤ) (phone : String) (dayEnd interval : ℚ)
    (jit : ℕ → ℚ) (dur : ℕ → ℤ) :
    List String → ℚ → ℕ → List CallRecord
  | [], _, _ => []
  | call_status :: rest, time_cursor, attempt =>
    let c := time_cursor + (interval + jit attempt)
    if dayEnd ≤ c then []
    else
      { dateTime := c, attempt := attempt, leadId := lead, status := call_status,
        length := if call_status = "Answered" then dur attempt else 0,
        phone := phone } ::
      runSlots lead phone dayEnd interval jit dur rest c (attempt + 1)

/-- The body of the phone loop for one (day, phone) pair (lines 36-69): draw a
lead id, build and shuffle the day statuses, then walk the time cursor from
`day_start_time` with the attempt counter starting at 1. -/
def genPass (o : Oracle) (di pi : ℕ) (d : ℤ) (phone : String)
    (business_start business_end : ℤ) (total ans : ℕ) : List CallRecord :=
  runSlots (o.leadId di pi) phone (dayEndTime d business_end)
    (uniform_interval_seconds business_start business_end total)
    (o.jitter di pi) (o.duration di pi)
    (o.shuffle di pi (daily_statuses total ans (o.choice di pi)))
    (dayStartTime d business_start) 1

/-- The days visited by `while current_date <= end_datetime` (lines 21-28, 70):
both dates truncated to midnight, stepping one day at a time. -/
def dayRange (startDate endDate : ℤ) : List ℤ :=
  (List.range (endDate + 1 - startDate).toNat).map (fun i : ℕ => startDate + (i : ℤ))

/-- The body of the phone loop (lines 32-34): strip the entry, skip it if the
stripped entry is empty, otherwise run the pass for this (day, phone). -/
def genPhoneBlock (o : Oracle) (business_start business_end : ℤ)
    (total ans : ℕ) (di : ℕ) (d : ℤ) (pip : ℕ × String) : List CallRecord :=
  if pyStrip pip.2 = "" then []
  else genPass o di pip.1 d (pyStrip pip.2) business_start business_end total ans

/-- All records of one day: the phone loop over the supplied entries. -/
def genDayBlock (o : Oracle) (phones : List String)
    (business_start business_end : ℤ) (total ans : ℕ)
    (did : ℕ × ℤ) : List CallRecord :=
  phones.enum.flatMap (genPhoneBlock o business_start business_end total ans did.1 did.2)

/-- `generate_all_call_data` (lines 10-71): iterate the days of the inclusive
date range, and for each day the phone entries, appending every emitted
record in generation order. -/
def generate_all_call_data (o : Oracle) (phone_numbers : List String)
    (start_date end_date business_start business_end : ℤ)
    (total_calls_per_day avg_answered_total : ℕ) : List CallRecord :=
  (dayRange start_date end_date).enum.flatMap
    (genDayBlock o phone_numbers business_start business_end
      total_calls_per_day avg_answered_total)

/-- The calendar day a record's timestamp falls on. -/
def calendarDay (r : CallRecord) : ℤ := ⌊r.dateTime / 86400⌋

/-- The whole-second instant the record stores: the source writes
`time_cursor.strftime("%d-%m-%Y %H:%M:%S")` (line 62), the cursor truncated
to second precision — a `datetime` carries a nonnegative sub-second part, so
the stored value is the floor of the instant in seconds. -/
def displayedSecond (r : CallRecord) : ℤ := ⌊r.dateTime⌋

/-- The records of one (phone line, calendar day) group, in emission order. -/
def callGroup (recs : List CallRecord) (p : String) (d : ℤ) : List CallRecord :=
  recs.filter (fun r => r.phone == p && calendarDay r == d)

instance : Inhabited CallRecord :=
  ⟨{ dateTime := 0, attempt := 0, leadId := 0, status := "", length := 0, phone := "" }⟩

/-- The number of records of a list whose status is `"Answered"`. -/
def answeredCount (recs : List CallRecord) : ℕ :=
  (recs.filter (fun r => r.status == "Answered")).length

/-- A fixed oracle: smallest lead id, identity shuffle, pool choice `"Busy"`,
zero jitter, duration 1. -/
def oTriv : Oracle :=
  { leadId := fun _ _ => 300000, shuffle := fun _ _ l => l,
    choice := fun _ _ _ => "Busy", jitter := fun _ _ _ => 0,
    duration := fun _ _ _ => 1 }

/-- An oracle whose every jitter draw is -2700 (legal once `jitter_max ≥ 2700`). -/
def oNegJitter : Oracle :=
  { leadId := fun _ _ => 300000, shuffle := fun _ _ l => l,
    choice := fun _ _ _ => "Busy", jitter := fun _ _ _ => -2700,
    duration := fun _ _ _ => 1 }

/-- An oracle whose second jitter draw of each pass is -900 and the others 0
(legal once `jitter_max ≥ 900`): with a 900-second uniform interval the second
slot advances the cursor by zero. -/
def oTieJitter : Oracle :=
  { leadId := fun _ _ => 300000, shuffle := fun _ _ l => l,
    choice := fun _ _ _ => "Busy", jitter := fun _ _ k => if k = 2 then -900 else 0,
    duration := fun _ _ _ => 1 }

/-- An oracle whose jitter draws on the second day (day index 1) are -86400
(one full day; legal once `jitter_max ≥ 86400`), pulling that day's cursor
back into the previous calendar day. -/
def oDriftJitter : Oracle :=
  { leadId := fun _ _ => 300000, shuffle := fun _ _ l => l,
    choice := fun _ _ _ => "Busy",
    jitter := fun di _ _ => if di = 1 then -86400 else 0,
    duration := fun _ _ _ => 1 }

/-- Like `oDriftJitter`, with a distinct lead id on even and odd day indices. -/
def oDriftLead : Oracle :=
  { leadId := fun di _ => 300000 + ((di % 2 : ℕ) : ℤ), shuffle := fun _ _ l => l,
    choice := fun _ _ _ => "Busy",
    jitter := fun di _ _ => if di = 1 then -86400 else 0,
    duration := fun _ _ _ => 1 }

/-- An oracle drawing a distinct lead id on even and odd phone indices,
zero jitter. -/
def oPerPhoneLead : Oracle :=
  { leadId := fun _ pi => 300000 + ((pi % 2 : ℕ) : ℤ), shuffle := fun _ _ l => l,
    choice := fun _ _ _ => "Busy", jitter := fun _ _ _ => 0,
    duration := fun _ _ _ => 1 }

/-!
The renderer (`create_pdf_bytes`, lines 73-106).  The page state is the FPDF
cursor: vertical position `y` (mm), page number, current fill colour, font
boldness and text colour.  `add_page` resets `y` to the top margin (10 mm for
FPDF's default 1 cm margin); every cell is 7 mm high and drawn with `ln=0`, so
`y` is unchanged within a row and `pdf.ln()` advances it by 7 at the row's end.
The page-break check `pdf.get_y() > 180` happens before each cell; the nested
`print_row(header)` after an `add_page` starts at `y = 10 ≤ 180`, so the
recursion of the source never exceeds depth 2.  The embedding makes that bound
explicit with a fuel argument counting the page breaks a call may still take
(`create_pdf_bytes` supplies fuel 2; the fuel-0 fallback, which skips the
break, is unreachable from it).
-/

/-- FPDF cursor and styling state. -/
structure RState where
  y : ℚ
  page : ℕ
  fillColor : ℕ × ℕ × ℕ
  fontBold : Bool
  textColor : ℕ × ℕ × ℕ
  deriving DecidableEq, Repr

/-- One drawn cell: where it lands and with which styling. -/
structure Cell where
  page : ℕ
  y : ℚ
  item : String
  width : ℚ
  fill : ℕ × ℕ × ℕ
  bold : Bool
  color : ℕ × ℕ × ℕ
  deriving DecidableEq, Repr

/-- The log of one cell iteration of `print_row`: whether the page-break check
fired before this cell, the re-emitted header's cells and nested break count
(both empty/zero when it did not fire), and the cell itself. -/
structure CellLog where
  broke : Bool
  headerCells : List Cell
  nestedBreaks : ℕ
  cell : Cell
  deriving DecidableEq, Repr

/-- The log of one `print_row` call. -/
structure RowLog where
  isHeader : Bool
  cellLogs : List CellLog
  deriving DecidableEq, Repr

/-- `df.columns.tolist()`: the six dictionary keys of a record (line 61-68). -/
def df_columns : List String :=
  ["Date Time", "Attempt", "Lead ID", "Status", "Length (s)", "Phone"]

/-- `col_widths = [45, 20, 30, 30, 30, 45]` (line 79). -/
def col_widths : List ℚ := [45, 20, 30, 30, 30, 45]

/-- `pdf.cell(width, 7, str(item), border=1, ln=0, align='C', fill=True)`:
the cell lands at the current page and `y`, with the current styling. -/
def mkCell (s : RState) (item : String) (w : ℚ) : Cell :=
  { page := s.page, y := s.y, item := item, width := w, fill := s.fillColor,
    bold := s.fontBold, color := s.textColor }

/-- Page breaks taken at one cell, the nested header emission included. -/
def CellLog.breaks (cl : CellLog) : ℕ := (if cl.broke then 1 else 0) + cl.nestedBreaks

/-- Header styling: `set_fill_color(200, 220, 255); set_font('Helvetica', 'B', 9)`
(lines 83-84). -/
def headerStyle (s : RState) : RState :=
  { s with fillColor := (200, 220, 255), fontBold := true }

/-- Data styling: `set_fill_color(255, 255, 255); set_font('Helvetica', '', 9)`
(lines 86-87). -/
def dataStyle (s : RState) : RState :=
  { s with fillColor := (255, 255, 255), fontBold := false }

/-- The styling branch at the top of `print_row` (lines 82-87). -/
def rowStyle (is_header : Bool) (s : RState) : RState :=
  if is_header then headerStyle s else dataStyle s

/-- The cell loop of `print_row` (lines 89-94): before each cell, if
`pdf.get_y() > 180` then `pdf.add_page()` (fresh page, `y = 10`) and the header
row is re-emitted — `hdrRender` stands for the cell loop of the nested
`print_row(df.columns, is_header=True)` call, entered after its styling lines;
the trailing `pdf.ln()` of that nested call is the `y + 7` below.  The styling
installed for the header is left active when the data cells continue. -/
def renderCellsGo (hdrRender : RState → RState × List CellLog) :
    List (String × ℚ) → RState → RState × List CellLog
  | [], s => (s, [])
  | (item, w) :: rest, s =>
    if 180 < s.y then
      let sPage : RState := { s with y := 10, page := s.page + 1 }
      let hout := hdrRender (headerStyle sPage)
      let s1 : RState := { hout.1 with y := hout.1.y + 7 }
      let rout := renderCellsGo hdrRender rest s1
      (rout.1,
        { broke := true, headerCells := hout.2.map CellLog.cell,
          nestedBreaks := (hout.2.map CellLog.breaks).sum,
          cell := mkCell s1 item w } :: rout.2)
    else
      let out := renderCellsGo hdrRender rest s
      (out.1, { broke := false, headerCells := [], nestedBreaks := 0,
                cell := mkCell s item w } :: out.2)

/-- The cell loop with `fuel` counting how deep header re-emissions may nest.
The nested header starts at the fresh top margin `10 ≤ 180`, so the source's
recursion never exceeds depth 2 and `create_pdf_bytes` supplies fuel 2; the
fuel-0 fallback (a page break that re-emits no header cells) is unreachable
from it. -/
def renderCells : ℕ → List (String × ℚ) → RState → RState × List CellLog
  | 0, l, s => renderCellsGo (fun s' => (s', [])) l s
  | fuel + 1, l, s =>
    renderCellsGo (fun s' => renderCells fuel (df_columns.zip col_widths) s') l s

/-- `print_row` (lines 81-95): install the row styling, run the cell loop over
`zip(data, col_widths)`, then `pdf.ln()` (each cell is 7 mm high). -/
def print_row (fuel : ℕ) (data : List String) (is_header : Bool)
    (s : RState) : RState × RowLog :=
  let out := renderCells fuel (data.zip col_widths) (rowStyle is_header s)
  ({ out.1 with y := out.1.y + 7 }, { isHeader := is_header, cellLogs := out.2 })

/-- The data loop of `create_pdf_bytes` (lines 98-104): per row, set the text
colour to green when `row[3] == "Answered"` and black otherwise, then print
the row. -/
def renderRows : List (List String) → RState → RState × List RowLog
  | [], s => (s, [])
  | row :: rest, s =>
    let sColor : RState :=
      { s with textColor := if row.get? 3 = some "Answered" then (0, 100, 0) else (0, 0, 0) }
    let out := print_row 2 row false sColor
    let outs := renderRows rest out.1
    (outs.1, out.2 :: outs.2)

/-- `create_pdf_bytes` (lines 73-106): one fresh page (`y` at the 10 mm top
margin), default styling, the header row, then the data rows.  The byte
encoding of the finished document is not modelled; the result is the final
state and the log of every row printed. -/
def create_pdf_bytes (rows : List (List String)) : RState × List RowLog :=
  let s0 : RState := { y := 10, page := 1, fillColor := (0, 0, 0),
                       fontBold := false, textColor := (0, 0, 0) }
  let hout := print_row 2 df_columns true s0
  let routs := renderRows rows hout.1
  (routs.1, hout.2 :: routs.2)

/-- Page breaks taken during one `print_row` call. -/
def RowLog.breaks (rl : RowLog) : ℕ := (rl.cellLogs.map CellLog.breaks).sum

/-- Header-row emissions of a rendering: the `print_row` calls with
`is_header=True` — the top-level ones plus one per page break taken. -/
def headerEmissions (rls : List RowLog) : ℕ :=
  (rls.filter (fun rl => rl.isHeader)).length + (rls.map RowLog.breaks).sum

/-- The cell logs of a cell loop that takes no page break: one log per
(item, width) pair, every cell drawn at the unchanged state. -/
def plainLogs (s : RState) (l : List (String × ℚ)) : List CellLog :=
  l.map (fun iw => { broke := false, headerCells := [], nestedBreaks := 0,
                     cell := mkCell s iw.1 iw.2 })

instance : Inhabited Cell :=
  ⟨{ page := 0, y := 0, item := "", width := 0, fill := (0, 0, 0), bold := false,
     color := (0, 0, 0) }⟩

instance : Inhabited CellLog :=
  ⟨{ broke := false, headerCells := [], nestedBreaks := 0, cell := default }⟩

instance : Inhabited RowLog := ⟨{ isHeader := false, cellLogs := [] }⟩

/-- A six-cell data row, as rendered from one record. -/
def testRow : List String :=
  ["01-01-2024 09:15:00", "1", "300000", "Answered", "5", "555-0100"]

/-- A six-cell data row whose status cell is not `"Answered"`. -/
def testRowBusy : List String :=
  ["01-01-2024 09:15:00", "1", "300000", "Busy", "0", "555-0100"]

theorem oTriv_valid {jm : ℚ} (h : 0 ≤ jm) : Oracle.Valid oTriv jm := by
  refine ⟨fun _ _ => ⟨by norm_num [oTriv], by norm_num [oTriv]⟩,
    fun _ _ l => List.Perm.refl l,
    fun _ _ _ => by simp [oTriv, remaining_statuses_pool],
    fun _ _ _ => ⟨by simpa [oTriv] using neg_nonpos.mpr h, by simpa [oTriv] using h⟩,
    fun _ _ _ => ⟨by norm_num [oTriv], by norm_num [oTriv]⟩⟩

/-- C9: if `startDate > endDate` (dates truncated to midnight), the generator
returns the empty record list: the day loop body never runs. -/
theorem generate_empty_of_reversed_range (o : Oracle) (phones : List String)
    (business_start business_end : ℤ) (total ans : ℕ)
    (start_date end_date : ℤ) (h : end_date < start_date) :
    generate_all_call_data o phones start_date end_date
      business_start business_end total ans = [] := by
  have hz : (end_date + 1 - start_date).toNat = 0 := by omega
  simp [generate_all_call_data, dayRange, hz]

/-- C9 witness: a start date strictly after the end date yields no records. -/
theorem generate_empty_of_reversed_range_witness :
    generate_all_call_data oTriv ["555-0100"] 5 3 9 10 4 1 = [] :=
  generate_empty_of_reversed_range oTriv ["555-0100"] 9 10 4 1 5 3 (by norm_num)

theorem runSlots_upper (lead : ℤ) (phone : String) (dayEnd interval : ℚ)
    (jit : ℕ → ℚ) (dur : ℕ → ℤ) :
    ∀ (l : List String) (cursor : ℚ) (att : ℕ),
      ∀ r ∈ runSlots lead phone dayEnd interval jit dur l cursor att,
        r.dateTime < dayEnd := by
  intro l
  induction l with
  | nil => intro cursor att r hr; simp [runSlots] at hr
  | cons s rest ih =>
    intro cursor att r hr
    rw [runSlots] at hr
    by_cases hc : dayEnd ≤ cursor + (interval + jit att)
    · simp [hc] at hr
    · simp only [if_neg hc, List.mem_cons] at hr
      rcases hr with hr | hr
      · subst hr; exact lt_of_not_le hc
      · exact ih _ _ r hr

theorem runSlots_lower (lead : ℤ) (phone : String) (dayEnd interval : ℚ)
    (jit : ℕ → ℚ) (dur : ℕ → ℤ) (hj : ∀ k, 0 ≤ interval + jit k) :
    ∀ (l : List String) (cursor : ℚ) (att : ℕ),
      ∀ r ∈ runSlots lead phone dayEnd interval jit dur l cursor att,
        cursor ≤ r.dateTime := by
  intro l
  induction l with
  | nil => intro cursor att r hr; simp [runSlots] at hr
  | cons s rest ih =>
    intro cursor att r hr
    rw [runSlots] at hr
    by_cases hc : dayEnd ≤ cursor + (interval + jit att)
    · simp [hc] at hr
    · simp only [if_neg hc, List.mem_cons] at hr
      have hstep : cursor ≤ cursor + (interval + jit att) := le_add_of_nonneg_right (hj att)
      rcases hr with hr | hr
      · subst hr; exact hstep
      · exact le_trans hstep (ih _ _ r hr)

theorem runSlots_phone_lead (lead : ℤ) (phone : String) (dayEnd interval : ℚ)
    (jit : ℕ → ℚ) (dur : ℕ → ℤ) :
    ∀ (l : List String) (cursor : ℚ) (att : ℕ),
      ∀ r ∈ runSlots lead phone dayEnd interval jit dur l cursor att,
        r.phone = phone ∧ r.leadId = lead := by
  intro l
  induction l with
  | nil => intro cursor att r hr; simp [runSlots] at hr
  | cons s rest ih =>
    intro cursor att r hr
    rw [runSlots] at hr
    by_cases hc : dayEnd ≤ cursor + (interval + jit att)
    · simp [hc] at hr
    · simp only [if_neg hc, List.mem_cons] at hr
      rcases hr with hr | hr
      · subst hr; exact ⟨rfl, rfl⟩
      · exact ih _ _ r hr

theorem runSlots_attempts (lead : ℤ) (phone : String) (dayEnd interval : ℚ)
    (jit : ℕ → ℚ) (dur : ℕ → ℤ) :
    ∀ (l : List String) (cursor : ℚ) (att : ℕ),
      (runSlots lead phone dayEnd interval jit dur l cursor att).map (fun r => r.attempt)
        = List.range' att (runSlots lead phone dayEnd interval jit dur l cursor att).length := by
  intro l
  induction l with
  | nil => intro cursor att; simp [runSlots]
  | cons s rest ih =>
    intro cursor att
    rw [runSlots]
    by_cases hc : dayEnd ≤ cursor + (interval + jit att)
    · simp [hc]
    · simp only [if_neg hc, List.map_cons, List.length_cons, List.range'_succ]
      rw [ih]

theorem runSlots_statuses (lead : ℤ) (phone : String) (dayEnd interval : ℚ)
    (jit : ℕ → ℚ) (dur : ℕ → ℤ) :
    ∀ (l : List String) (cursor : ℚ) (att : ℕ),
      (runSlots lead phone dayEnd interval jit dur l cursor att).map (fun r => r.status)
        = l.take (runSlots lead phone dayEnd interval jit dur l cursor att).length := by
  intro l
  induction l with
  | nil => intro cursor att; simp [runSlots]
  | cons s rest ih =>
    intro cursor att
    rw [runSlots]
    by_cases hc : dayEnd ≤ cursor + (interval + jit att)
    · simp [hc]
    · simp only [if_neg hc, List.map_cons, List.length_cons, List.take_succ_cons]
      rw [ih]

theorem runSlots_chain (lead : ℤ) (phone : String) (dayEnd interval : ℚ)
    (jit : ℕ → ℚ) (dur : ℕ → ℤ) (hj : ∀ k, 0 < interval + jit k) :
    ∀ (l : List String) (cursor : ℚ) (att : ℕ),
      List.Chain' (fun a b => a < b)
        (cursor :: (runSlots lead phone dayEnd interval jit dur l cursor att).map
          (fun r => r.dateTime)) := by
  intro l
  induction l with
  | nil => intro cursor att; simp [runSlots]
  | cons s rest ih =>
    intro cursor att
    rw [runSlots]
    by_cases hc : dayEnd ≤ cursor + (interval + jit att)
    · simp [hc]
    · simp only [if_neg hc, List.map_cons]
      rw [List.chain'_cons]
      exact ⟨lt_add_of_pos_right cursor (hj att), ih _ _⟩

theorem runSlots_duration (lead : ℤ) (phone : String) (dayEnd interval : ℚ)
    (jit : ℕ → ℚ) (dur : ℕ → ℤ) (hdur : ∀ k, 1 ≤ dur k ∧ dur k ≤ 14) :
    ∀ (l : List String) (cursor : ℚ) (att : ℕ),
      ∀ r ∈ runSlots lead phone dayEnd interval jit dur l cursor att,
        (r.status ≠ "Answered" → r.length = 0) ∧
        (r.status = "Answered" → 1 ≤ r.length ∧ r.length ≤ 14) := by
  intro l
  induction l with
  | nil => intro cursor att r hr; simp [runSlots] at hr
  | cons s rest ih =>
    intro cursor att r hr
    rw [runSlots] at hr
    by_cases hc : dayEnd ≤ cursor + (interval + jit att)
    · simp [hc] at hr
    · simp only [if_neg hc, List.mem_cons] at hr
      rcases hr with hr | hr
      · subst hr
        constructor
        · intro hne
          simp only at hne ⊢
          rw [if_neg hne]
        · intro heq
          simp only at heq ⊢
          rw [if_pos heq]
          exact hdur att
      · exact ih _ _ r hr

theorem daily_statuses_count (total ans : ℕ) (choice : ℕ → String)
    (hc : ∀ k, choice k ∈ remaining_statuses_pool) :
    (daily_statuses total ans choice).count "Answered" = min ans total := by
  rw [daily_statuses, List.count_append, List.count_replicate_self]
  have hz : List.count "Answered" ((List.range (total - min ans total)).map choice) = 0 := by
    rw [List.count_eq_zero]
    intro hmem
    obtain ⟨k, _, hk⟩ := List.mem_map.mp hmem
    have := hc k
    rw [hk] at this
    simp [remaining_statuses_pool] at this
  omega

theorem daily_statuses_length (total ans : ℕ) (choice : ℕ → String) :
    (daily_statuses total ans choice).length = total := by
  rw [daily_statuses, List.length_append, List.length_replicate, List.length_map,
    List.length_range]
  omega

theorem genPass_bounds (o : Oracle) {jm : ℚ} (hv : o.Valid jm) (di pi : ℕ) (d : ℤ)
    (phone : String) (bs be : ℤ) (total ans : ℕ)
    (hbs : 0 ≤ bs) (hbe : be ≤ 24)
    (hj : jm ≤ uniform_interval_seconds bs be total) :
    ∀ r ∈ genPass o di pi d phone bs be total ans,
      dayStartTime d bs ≤ r.dateTime ∧ r.dateTime < dayEndTime d be ∧
        calendarDay r = d := by
  intro r hr
  rw [genPass] at hr
  have hjit : ∀ k, 0 ≤ uniform_interval_seconds bs be total + o.jitter di pi k := by
    intro k
    have h1 := (hv.2.2.2.1 di pi k).1
    linarith
  have hlow := runSlots_lower (o.leadId di pi) phone (dayEndTime d be)
    (uniform_interval_seconds bs be total) (o.jitter di pi) (o.duration di pi) hjit
    _ _ _ r hr
  have hup := runSlots_upper (o.leadId di pi) phone (dayEndTime d be)
    (uniform_interval_seconds bs be total) (o.jitter di pi) (o.duration di pi)
    _ _ _ r hr
  refine ⟨hlow, hup, ?_⟩
  have hbs' : (0 : ℚ) ≤ (bs : ℚ) := by exact_mod_cast hbs
  have hbe' : (be : ℚ) ≤ 24 := by exact_mod_cast hbe
  have h1 : (d : ℚ) * 86400 ≤ r.dateTime := by
    rw [dayStartTime] at hlow; nlinarith
  have h2 : r.dateTime < ((d : ℚ) + 1) * 86400 := by
    rw [dayEndTime] at hup; nlinarith
  rw [calendarDay, Int.floor_eq_iff]
  constructor
  · rw [le_div_iff₀ (by norm_num : (0 : ℚ) < 86400)]
    exact h1
  · rw [div_lt_iff₀ (by norm_num : (0 : ℚ) < 86400)]
    linarith

theorem genPass_phone_lead (o : Oracle) (di pi : ℕ) (d : ℤ) (phone : String)
    (bs be : ℤ) (total ans : ℕ) :
    ∀ r ∈ genPass o di pi d phone bs be total ans,
      r.phone = phone ∧ r.leadId = o.leadId di pi := by
  intro r hr
  rw [genPass] at hr
  exact runSlots_phone_lead (o.leadId di pi) phone (dayEndTime d be)
    (uniform_interval_seconds bs be total) (o.jitter di pi) (o.duration di pi)
    _ _ _ r hr

theorem mem_generate (o : Oracle) (phones : List String)
    (sd ed bs be : ℤ) (total ans : ℕ) (r : CallRecord) :
    r ∈ generate_all_call_data o phones sd ed bs be total ans ↔
      ∃ di d pi p, (di, d) ∈ (dayRange sd ed).enum ∧ (pi, p) ∈ phones.enum ∧
        pyStrip p ≠ "" ∧ r ∈ genPass o di pi d (pyStrip p) bs be total ans := by
  constructor
  · intro h
    rw [generate_all_call_data, List.mem_flatMap] at h
    obtain ⟨⟨di, d⟩, hd, h⟩ := h
    rw [genDayBlock, List.mem_flatMap] at h
    obtain ⟨⟨pi, p⟩, hp, h⟩ := h
    rw [genPhoneBlock] at h
    by_cases hb : pyStrip p = ""
    · simp [hb] at h
    · rw [if_neg hb] at h
      exact ⟨di, d, pi, p, hd, hp, hb, h⟩
  · rintro ⟨di, d, pi, p, hd, hp, hb, hr⟩
    rw [generate_all_call_data, List.mem_flatMap]
    refine ⟨(di, d), hd, ?_⟩
    rw [genDayBlock, List.mem_flatMap]
    refine ⟨(pi, p), hp, ?_⟩
    rw [genPhoneBlock, if_neg hb]
    exact hr

theorem oNegJitter_valid : Oracle.Valid oNegJitter 2700 := by
  refine ⟨fun _ _ => ⟨by norm_num [oNegJitter], by norm_num [oNegJitter]⟩,
    fun _ _ l => List.Perm.refl l,
    fun _ _ _ => by simp [oNegJitter, remaining_statuses_pool],
    fun _ _ _ => ⟨by norm_num [oNegJitter], by norm_num [oNegJitter]⟩,
    fun _ _ _ => ⟨by norm_num [oNegJitter], by norm_num [oNegJitter]⟩⟩

/-- C1 counterexample: with business hours 9-10, four calls per day (uniform
interval 900 s) and the legal jitter bound `maxJitterSeconds = 2700`, an
oracle whose jitter draws are all -2700 makes the generator emit a record at
08:30:00, strictly before the business-start instant of its calendar day, so
a timestamp can be earlier than `dayStart`. -/
theorem generate_timestamp_escapes_window :
    Oracle.Valid oNegJitter 2700 ∧
      ∃ r ∈ generate_all_call_data oNegJitter ["p"] 0 0 9 10 4 0,
        r.dateTime < dayStartTime (calendarDay r) 9 :=
  ⟨oNegJitter_valid, by decide⟩

/-- C1 (amended): whenever `maxJitterSeconds ≤ uniformIntervalSeconds` (in
particular for zero jitter), every record emitted by the generator has its
timestamp inside `[dayStart, dayEnd)` of its calendar day, `dayStart`/`dayEnd`
being the business-start and business-end instants of that date. -/
theorem generate_timestamp_in_window (o : Oracle) (phones : List String)
    (sd ed bs be : ℤ) (total ans : ℕ) (jm : ℚ) (hv : o.Valid jm)
    (hbs : 0 ≤ bs) (hbe : be ≤ 24)
    (hj : jm ≤ uniform_interval_seconds bs be total) :
    ∀ r ∈ generate_all_call_data o phones sd ed bs be total ans,
      dayStartTime (calendarDay r) bs ≤ r.dateTime ∧
        r.dateTime < dayEndTime (calendarDay r) be := by
  intro r hr
  obtain ⟨di, d, pi, p, _, _, _, hpass⟩ :=
    (mem_generate o phones sd ed bs be total ans r).mp hr
  obtain ⟨h1, h2, h3⟩ :=
    genPass_bounds o hv di pi d (pyStrip p) bs be total ans hbs hbe hj r hpass
  rw [h3]
  exact ⟨h1, h2⟩

/-- C1 witness: the amended bound at a concrete zero-jitter input, for the
first emitted record. -/
theorem generate_timestamp_in_window_witness :
    dayStartTime (calendarDay ((generate_all_call_data oTriv ["555-0100"] 0 0 9 10 4 1).headI)) 9
      ≤ ((generate_all_call_data oTriv ["555-0100"] 0 0 9 10 4 1).headI).dateTime ∧
    ((generate_all_call_data oTriv ["555-0100"] 0 0 9 10 4 1).headI).dateTime
      < dayEndTime (calendarDay ((generate_all_call_data oTriv ["555-0100"] 0 0 9 10 4 1).headI)) 10 :=
  generate_timestamp_in_window oTriv ["555-0100"] 0 0 9 10 4 1 0
    (oTriv_valid le_rfl) (by norm_num) (by norm_num) (by decide) _ (by decide)

/-- C7: every emitted record has `durationSeconds = 0` when its status is not
Answered, and `durationSeconds ∈ [1, 14]` when its status is Answered. -/
theorem generate_duration_matches_status (o : Oracle) (phones : List String)
    (sd ed bs be : ℤ) (total ans : ℕ) (jm : ℚ) (hv : o.Valid jm) :
    ∀ r ∈ generate_all_call_data o phones sd ed bs be total ans,
      (r.status ≠ "Answered" → r.length = 0) ∧
        (r.status = "Answered" → 1 ≤ r.length ∧ r.length ≤ 14) := by
  intro r hr
  obtain ⟨di, d, pi, p, _, _, _, hpass⟩ :=
    (mem_generate o phones sd ed bs be total ans r).mp hr
  rw [genPass] at hpass
  exact runSlots_duration (o.leadId di pi) (pyStrip p) (dayEndTime d be)
    (uniform_interval_seconds bs be total) (o.jitter di pi) (o.duration di pi)
    (hv.2.2.2.2 di pi) _ _ _ r hpass

/-- C7 witness: the duration rule at a concrete input, for the first emitted
record. -/
theorem generate_duration_matches_status_witness :
    (((generate_all_call_data oTriv ["555-0100"] 0 0 9 10 4 1).headI).status ≠ "Answered" →
      ((generate_all_call_data oTriv ["555-0100"] 0 0 9 10 4 1).headI).length = 0) ∧
    (((generate_all_call_data oTriv ["555-0100"] 0 0 9 10 4 1).headI).status = "Answered" →
      1 ≤ ((generate_all_call_data oTriv ["555-0100"] 0 0 9 10 4 1).headI).length ∧
        ((generate_all_call_data oTriv ["555-0100"] 0 0 9 10 4 1).headI).length ≤ 14) :=
  generate_duration_matches_status oTriv ["555-0100"] 0 0 9 10 4 1 0
    (oTriv_valid le_rfl) _ (by decide)

theorem nodup_getElem?_inj {α : Type _} {l : List α} (hnd : l.Nodup) {i j : ℕ} {a : α}
    (h1 : l[i]? = some a) (h2 : l[j]? = some a) : i = j := by
  obtain ⟨hi, hia⟩ := List.getElem?_eq_some_iff.mp h1
  obtain ⟨hj, hja⟩ := List.getElem?_eq_some_iff.mp h2
  have hg : l.get ⟨i, hi⟩ = l.get ⟨j, hj⟩ := by
    simp only [List.get_eq_getElem]
    rw [hia, hja]
  have hf := (List.Nodup.get_inj_iff hnd).mp hg
  exact congrArg Fin.val hf

theorem enum_nodup {α : Type _} (l : List α) : l.enum.Nodup := by
  apply List.Nodup.of_map Prod.fst
  rw [List.enum_map_fst]
  exact List.nodup_range _

theorem dayRange_nodup (s e : ℤ) : (dayRange s e).Nodup := by
  rw [dayRange]
  refine List.Nodup.map (f := fun i : ℕ => s + (i : ℤ)) ?_ (List.nodup_range _)
  intro a b hab
  simp only at hab
  omega

theorem filter_flatMap_nil {α β : Type _} (p : β → Bool) (L : List α) (g : α → List β)
    (h : ∀ x ∈ L, (g x).filter p = []) : (L.flatMap g).filter p = [] := by
  induction L with
  | nil => simp
  | cons y ys ih =>
    rw [List.flatMap_cons, List.filter_append, h y (List.mem_cons_self y ys),
      List.nil_append]
    exact ih (fun x hx => h x (List.mem_cons_of_mem y hx))

theorem filter_flatMap_single {α β : Type _} (p : β → Bool) (L : List α)
    (g : α → List β) (x₀ : α) (hmem : x₀ ∈ L) (hnd : L.Nodup)
    (h : ∀ x ∈ L, x ≠ x₀ → (g x).filter p = []) :
    (L.flatMap g).filter p = (g x₀).filter p := by
  induction L with
  | nil => simp at hmem
  | cons y ys ih =>
    rw [List.flatMap_cons, List.filter_append]
    rcases List.mem_cons.mp hmem with h0 | h0
    · subst h0
      rw [filter_flatMap_nil p ys g, List.append_nil]
      intro x hx
      apply h x (List.mem_cons_of_mem _ hx)
      intro hxy
      subst hxy
      exact (List.nodup_cons.mp hnd).1 hx
    · have hy : y ≠ x₀ := by
        intro he
        exact (List.nodup_cons.mp hnd).1 (he ▸ h0)
      rw [h y (List.mem_cons_self y ys) hy, List.nil_append]
      exact ih h0 (List.nodup_cons.mp hnd).2
        (fun x hx hxne => h x (List.mem_cons_of_mem y hx) hxne)

theorem genDayBlock_day (o : Oracle) (phones : List String) {jm : ℚ}
    (hv : o.Valid jm) (bs be : ℤ) (total ans : ℕ)
    (hbs : 0 ≤ bs) (hbe : be ≤ 24)
    (hj : jm ≤ uniform_interval_seconds bs be total) (did : ℕ × ℤ) :
    ∀ r ∈ genDayBlock o phones bs be total ans did, calendarDay r = did.2 := by
  intro r hr
  rw [genDayBlock, List.mem_flatMap] at hr
  obtain ⟨⟨pi, p⟩, hp, hr⟩ := hr
  simp only [genPhoneBlock] at hr
  by_cases hb : pyStrip p = ""
  · rw [if_pos hb] at hr
    simp at hr
  · rw [if_neg hb] at hr
    exact (genPass_bounds o hv did.1 pi did.2 (pyStrip p) bs be total ans
      hbs hbe hj r hr).2.2

theorem callGroup_eq_cases (o : Oracle) (phones : List String) (sd ed bs be : ℤ)
    (total ans : ℕ) {jm : ℚ} (hv : o.Valid jm) (hbs : 0 ≤ bs) (hbe : be ≤ 24)
    (hj : jm ≤ uniform_interval_seconds bs be total)
    (hdist : ∀ i j : Fin phones.length, pyStrip (phones.get i) ≠ "" →
      pyStrip (phones.get i) = pyStrip (phones.get j) → i = j)
    (P : String) (D : ℤ) :
    callGroup (generate_all_call_data o phones sd ed bs be total ans) P D = [] ∨
      ∃ di pi p, (di, D) ∈ (dayRange sd ed).enum ∧ (pi, p) ∈ phones.enum ∧
        pyStrip p = P ∧ P ≠ "" ∧
        callGroup (generate_all_call_data o phones sd ed bs be total ans) P D =
          genPass o di pi D P bs be total ans := by
  classical
  have hdayfilter : ∀ did ∈ (dayRange sd ed).enum, did.2 ≠ D →
      (genDayBlock o phones bs be total ans did).filter
        (fun r => r.phone == P && calendarDay r == D) = [] := by
    intro did _ hne
    rw [List.filter_eq_nil_iff]
    intro r hr
    have hd := genDayBlock_day o phones hv bs be total ans hbs hbe hj did r hr
    simp [hd, hne]
  by_cases hD : ∃ di, (di, D) ∈ (dayRange sd ed).enum
  · obtain ⟨diD, hdiD⟩ := hD
    have hstep1 : (generate_all_call_data o phones sd ed bs be total ans).filter
        (fun r => r.phone == P && calendarDay r == D)
        = (genDayBlock o phones bs be total ans (diD, D)).filter
            (fun r => r.phone == P && calendarDay r == D) := by
      rw [generate_all_call_data]
      apply filter_flatMap_single _ _ _ (diD, D) hdiD (enum_nodup _)
      intro x hx hne
      apply hdayfilter x hx
      intro he
      apply hne
      have hx' : (x.1, D) ∈ (dayRange sd ed).enum := by
        rw [← he]
        exact hx
      have h1 := List.mem_enum_iff_getElem?.mp hx'
      have h2 := List.mem_enum_iff_getElem?.mp hdiD
      have h3 := nodup_getElem?_inj (dayRange_nodup sd ed) h1 h2
      cases x
      simp_all
    by_cases hP : ∃ pip : ℕ × String, pip ∈ phones.enum ∧ pyStrip pip.2 = P ∧ P ≠ ""
    · obtain ⟨⟨piP, pP⟩, hpiP, hPeq, hPne⟩ := hP
      right
      refine ⟨diD, piP, pP, hdiD, hpiP, hPeq, hPne, ?_⟩
      rw [callGroup, hstep1, genDayBlock]
      have hstep2 : (phones.enum.flatMap (genPhoneBlock o bs be total ans diD D)).filter
          (fun r => r.phone == P && calendarDay r == D)
          = (genPhoneBlock o bs be total ans diD D (piP, pP)).filter
              (fun r => r.phone == P && calendarDay r == D) := by
        apply filter_flatMap_single _ _ _ (piP, pP) hpiP (enum_nodup _)
        intro x hx hne
        by_cases hb : pyStrip x.2 = ""
        · rw [genPhoneBlock, if_pos hb]
          simp
        · rw [genPhoneBlock, if_neg hb, List.filter_eq_nil_iff]
          intro r hr
          have hphone := (genPass_phone_lead o diD x.1 D (pyStrip x.2)
            bs be total ans r hr).1
          have hnex : pyStrip x.2 ≠ P := by
            intro he
            apply hne
            have hgx := List.mem_enum_iff_getElem?.mp hx
            have hgp : phones[piP]? = some pP := List.mem_enum_iff_getElem?.mp hpiP
            obtain ⟨hlt1, hget1⟩ := List.getElem?_eq_some_iff.mp hgx
            obtain ⟨hlt2, hget2⟩ := List.getElem?_eq_some_iff.mp hgp
            have hPeq' : pyStrip pP = P := hPeq
            have hfin := hdist ⟨x.1, hlt1⟩ ⟨piP, hlt2⟩
              (by simpa [List.get_eq_getElem, hget1, he] using hPne)
              (by simp [List.get_eq_getElem, hget1, hget2, he, hPeq'])
            have hidx : x.1 = piP := congrArg Fin.val hfin
            have hval : x.2 = pP := by
              rw [← hget1, ← hget2]
              simp only [hidx]
            obtain ⟨x1, x2⟩ := x
            simp only at hidx hval
            rw [hidx, hval]
          simp [hphone, hnex]
      rw [hstep2, genPhoneBlock]
      have hPeq' : pyStrip pP = P := hPeq
      have hbP : pyStrip pP ≠ "" := by
        rw [hPeq']
        exact hPne
      rw [if_neg hbP]
      simp only
      rw [hPeq', List.filter_eq_self]
      intro r hr
      have h1 := (genPass_phone_lead o diD piP D P bs be total ans r hr).1
      have h2 := (genPass_bounds o hv diD piP D P bs be total ans hbs hbe hj r hr).2.2
      simp [h1, h2]
    · left
      rw [callGroup, hstep1, genDayBlock]
      apply filter_flatMap_nil
      intro pip hpip
      by_cases hb : pyStrip pip.2 = ""
      · rw [genPhoneBlock, if_pos hb]
        simp
      · rw [genPhoneBlock, if_neg hb, List.filter_eq_nil_iff]
        intro r hr
        have hphone := (genPass_phone_lead o diD pip.1 D (pyStrip pip.2)
          bs be total ans r hr).1
        have hnep : pyStrip pip.2 ≠ P := by
          intro he
          exact hP ⟨pip, hpip, he, by rw [← he]; exact hb⟩
        simp [hphone, hnep]
  · left
    rw [callGroup, generate_all_call_data]
    apply filter_flatMap_nil
    intro did hdid
    apply hdayfilter did hdid
    intro he
    apply hD
    refine ⟨did.1, ?_⟩
    rw [← he]
    exact hdid

theorem oTieJitter_valid : Oracle.Valid oTieJitter 900 := by
  refine ⟨fun _ _ => ⟨by norm_num [oTieJitter], by norm_num [oTieJitter]⟩,
    fun _ _ l => List.Perm.refl l,
    fun _ _ _ => by simp [oTieJitter, remaining_statuses_pool],
    fun _ _ k => ?_,
    fun _ _ _ => ⟨by norm_num [oTieJitter], by norm_num [oTieJitter]⟩⟩
  simp only [oTieJitter]
  split_ifs <;> norm_num

theorem oDriftJitter_valid : Oracle.Valid oDriftJitter 86400 := by
  refine ⟨fun _ _ => ⟨by norm_num [oDriftJitter], by norm_num [oDriftJitter]⟩,
    fun _ _ l => List.Perm.refl l,
    fun _ _ _ => by simp [oDriftJitter, remaining_statuses_pool],
    fun di _ k => ?_,
    fun _ _ _ => ⟨by norm_num [oDriftJitter], by norm_num [oDriftJitter]⟩⟩
  simp only [oDriftJitter]
  split_ifs <;> norm_num

theorem oDriftLead_valid : Oracle.Valid oDriftLead 86400 := by
  refine ⟨fun di _ => ⟨?_, ?_⟩,
    fun _ _ l => List.Perm.refl l,
    fun _ _ _ => by simp [oDriftLead, remaining_statuses_pool],
    fun di _ k => ?_,
    fun _ _ _ => ⟨by norm_num [oDriftLead], by norm_num [oDriftLead]⟩⟩
  · simp only [oDriftLead]
    omega
  · simp only [oDriftLead]
    omega
  · simp only [oDriftLead]
    split_ifs <;> norm_num

theorem oPerPhoneLead_valid : Oracle.Valid oPerPhoneLead 0 := by
  refine ⟨fun _ pi => ⟨?_, ?_⟩,
    fun _ _ l => List.Perm.refl l,
    fun _ _ _ => by simp [oPerPhoneLead, remaining_statuses_pool],
    fun _ _ _ => ⟨by norm_num [oPerPhoneLead], by norm_num [oPerPhoneLead]⟩,
    fun _ _ _ => ⟨by norm_num [oPerPhoneLead], by norm_num [oPerPhoneLead]⟩⟩
  · simp only [oPerPhoneLead]
    omega
  · simp only [oPerPhoneLead]
    omega

theorem runSlots_chain_floor (lead : ℤ) (phone : String) (dayEnd interval : ℚ)
    (jit : ℕ → ℚ) (dur : ℕ → ℤ) (hj : ∀ k, 1 ≤ interval + jit k) :
    ∀ (l : List String) (cursor : ℚ) (att : ℕ),
      List.Chain' (fun a b : ℤ => a < b)
        (⌊cursor⌋ :: (runSlots lead phone dayEnd interval jit dur l cursor att).map
          (fun r => displayedSecond r)) := by
  intro l
  induction l with
  | nil => intro cursor att; simp [runSlots]
  | cons s rest ih =>
    intro cursor att
    rw [runSlots]
    by_cases hc : dayEnd ≤ cursor + (interval + jit att)
    · simp [hc]
    · simp only [if_neg hc, List.map_cons]
      rw [List.chain'_cons]
      refine ⟨?_, ih _ _⟩
      have h1 : cursor + 1 ≤ cursor + (interval + jit att) := by
        have h2 := hj att
        linarith
      have h3 : ⌊cursor + (1 : ℚ)⌋ ≤ ⌊cursor + (interval + jit att)⌋ :=
        Int.floor_le_floor h1
      rw [show ((1 : ℚ)) = (((1 : ℤ)) : ℚ) by norm_num, Int.floor_add_int] at h3
      simp only [displayedSecond]
      omega

/-- C2 counterexample: (a) with the duplicated phone entry list `["p", "p"]`
(a precondition-satisfying input) the ("p", day) group collects two passes, so
its attempt indices are `[1, 1]`, not `1..k`; (b) with
`maxJitterSeconds = 900 = uniformIntervalSeconds`, a jitter draw of -900 makes
the cursor advance by zero, so two consecutive records carry equal stored
(second-precision) timestamps and the group is not strictly increasing. -/
theorem generate_group_shape_cex :
    (Oracle.Valid oTriv 0 ∧
      ¬((callGroup (generate_all_call_data oTriv ["p", "p"] 0 0 9 11 2 1) "p" 0).map
          (fun r => r.attempt) =
        List.range' 1
          (callGroup (generate_all_call_data oTriv ["p", "p"] 0 0 9 11 2 1) "p" 0).length)) ∧
    (Oracle.Valid oTieJitter 900 ∧
      ¬List.Chain' (fun a b : ℤ => a < b)
        ((callGroup (generate_all_call_data oTieJitter ["q"] 0 0 9 10 4 0) "q" 0).map
          (fun r => displayedSecond r))) := by
  refine ⟨⟨oTriv_valid le_rfl, by decide⟩, ⟨oTieJitter_valid, ?_⟩⟩
  have hmap : (callGroup (generate_all_call_data oTieJitter ["q"] 0 0 9 10 4 0) "q" 0).map
      (fun r => displayedSecond r) = [33300, 33300, 34200, 35100] := by decide
  rw [hmap]
  norm_num [List.chain'_cons]

/-- C2 (amended): when the stripped nonblank phone entries are pairwise
distinct and `maxJitterSeconds ≤ uniformIntervalSeconds`, every
(phoneLine, calendar day) group has attempt indices forming the contiguous
sequence `1..k` in emission order; when moreover
`maxJitterSeconds + 1 ≤ uniformIntervalSeconds` — so every cursor advance is
at least one second — the stored second-precision timestamps (what
`strftime("%d-%m-%Y %H:%M:%S")` writes) strictly increase along the group. -/
theorem generate_group_attempts_and_increasing (o : Oracle) (phones : List String)
    (sd ed bs be : ℤ) (total ans : ℕ) (jm : ℚ) (hv : o.Valid jm)
    (hbs : 0 ≤ bs) (hbe : be ≤ 24)
    (hdist : ∀ i j : Fin phones.length, pyStrip (phones.get i) ≠ "" →
      pyStrip (phones.get i) = pyStrip (phones.get j) → i = j)
    (hj : jm ≤ uniform_interval_seconds bs be total) (P : String) (D : ℤ) :
    (callGroup (generate_all_call_data o phones sd ed bs be total ans) P D).map
        (fun r => r.attempt) =
      List.range' 1
        (callGroup (generate_all_call_data o phones sd ed bs be total ans) P D).length ∧
    (jm + 1 ≤ uniform_interval_seconds bs be total →
      List.Chain' (fun a b : ℤ => a < b)
        ((callGroup (generate_all_call_data o phones sd ed bs be total ans) P D).map
          (fun r => displayedSecond r))) := by
  rcases callGroup_eq_cases o phones sd ed bs be total ans hv hbs hbe hj
      hdist P D with hc | ⟨di, pi, p, _, _, _, _, hc⟩
  · rw [hc]
    exact ⟨rfl, fun _ => List.chain'_nil⟩
  · rw [hc, genPass]
    refine ⟨runSlots_attempts _ _ _ _ _ _ _ _ _, ?_⟩
    intro hj1
    have hpos : ∀ k, 1 ≤ uniform_interval_seconds bs be total + o.jitter di pi k := by
      intro k
      have h1 := (hv.2.2.2.1 di pi k).1
      linarith
    exact (runSlots_chain_floor (o.leadId di pi) P (dayEndTime D be)
      (uniform_interval_seconds bs be total) (o.jitter di pi) (o.duration di pi)
      hpos _ _ _).tail

/-- C2 witness: the amended group shape at a concrete zero-jitter input
(uniform interval 900 s, so the one-second advance condition holds). -/
theorem generate_group_attempts_and_increasing_witness :
    (callGroup (generate_all_call_data oTriv ["a"] 0 0 9 10 4 1) "a" 0).map
        (fun r => r.attempt) =
      List.range' 1 (callGroup (generate_all_call_data oTriv ["a"] 0 0 9 10 4 1) "a" 0).length ∧
    ((0 : ℚ) + 1 ≤ uniform_interval_seconds 9 10 4 →
      List.Chain' (fun a b : ℤ => a < b)
        ((callGroup (generate_all_call_data oTriv ["a"] 0 0 9 10 4 1) "a" 0).map
          (fun r => displayedSecond r))) :=
  generate_group_attempts_and_increasing oTriv ["a"] 0 0 9 10 4 1 0
    (oTriv_valid le_rfl) (by norm_num) (by norm_num) (by decide) (by decide) "a" 0

/-- C3 counterexample: (a) with the duplicated phone entry list `["p", "p"]`
the ("p", day) group collects the Answered quota of two passes, giving 2
Answered records against `min(answeredPerDay, totalCallsPerDay) = 1`; (b) even
with pairwise-distinct phone entries, a legal jitter draw of -86400 on the
second day pulls that day's Answered record back into the first calendar day,
again giving 2 > 1. -/
theorem generate_answered_count_cex :
    (Oracle.Valid oTriv 0 ∧
      ¬(answeredCount (callGroup (generate_all_call_data oTriv ["p", "p"] 0 0 9 11 2 1) "p" 0)
        ≤ min 1 2)) ∧
    (Oracle.Valid oDriftJitter 86400 ∧
      ¬(answeredCount (callGroup (generate_all_call_data oDriftJitter ["p"] 0 1 9 10 2 1) "p" 0)
        ≤ min 1 2)) :=
  ⟨⟨oTriv_valid le_rfl, by decide⟩, ⟨oDriftJitter_valid, by decide⟩⟩

/-- C3 (amended): when the stripped nonblank phone entries are pairwise
distinct and `maxJitterSeconds ≤ uniformIntervalSeconds`, every
(phoneLine, calendar day) group has at most `min(answeredPerDay,
totalCallsPerDay)` Answered records, with equality whenever the group emitted
all `totalCallsPerDay` slots. -/
theorem generate_group_answered_count (o : Oracle) (phones : List String)
    (sd ed bs be : ℤ) (total ans : ℕ) (jm : ℚ) (hv : o.Valid jm)
    (hbs : 0 ≤ bs) (hbe : be ≤ 24)
    (hdist : ∀ i j : Fin phones.length, pyStrip (phones.get i) ≠ "" →
      pyStrip (phones.get i) = pyStrip (phones.get j) → i = j)
    (hj : jm ≤ uniform_interval_seconds bs be total) (P : String) (D : ℤ) :
    answeredCount (callGroup (generate_all_call_data o phones sd ed bs be total ans) P D)
      ≤ min ans total ∧
    ((callGroup (generate_all_call_data o phones sd ed bs be total ans) P D).length = total →
      answeredCount (callGroup (generate_all_call_data o phones sd ed bs be total ans) P D)
        = min ans total) := by
  rcases callGroup_eq_cases o phones sd ed bs be total ans hv hbs hbe hj hdist P D
    with hc | ⟨di, pi, p, _, _, _, _, hc⟩
  · rw [hc]
    constructor
    · simp [answeredCount]
    · intro hlen
      simp only [List.length_nil] at hlen
      simp [answeredCount, ← hlen]
  · rw [hc]
    have hcount : ∀ recs : List CallRecord, answeredCount recs
        = List.count "Answered" (recs.map (fun r => r.status)) := by
      intro recs
      rw [answeredCount, List.count_eq_countP, List.countP_map,
        ← List.countP_eq_length_filter]
      rfl
    have hperm := hv.2.1 di pi (daily_statuses total ans (o.choice di pi))
    have hdc : List.count "Answered"
        (o.shuffle di pi (daily_statuses total ans (o.choice di pi))) = min ans total := by
      rw [hperm.count_eq]
      exact daily_statuses_count total ans (o.choice di pi) (fun k => hv.2.2.1 di pi k)
    have hstat := runSlots_statuses (o.leadId di pi) P (dayEndTime D be)
      (uniform_interval_seconds bs be total) (o.jitter di pi) (o.duration di pi)
      (o.shuffle di pi (daily_statuses total ans (o.choice di pi)))
      (dayStartTime D bs) 1
    constructor
    · rw [hcount, genPass, hstat, ← hdc]
      exact (List.take_sublist _ _).count_le "Answered"
    · intro hlen
      rw [genPass] at hlen
      rw [hcount, genPass, hstat, hlen, ← hdc]
      have hll : (o.shuffle di pi (daily_statuses total ans (o.choice di pi))).length
          = total := by
        rw [hperm.length_eq]
        exact daily_statuses_length total ans (o.choice di pi)
      rw [List.take_of_length_le (le_of_eq hll)]

/-- C3 witness: the amended answered-count bound at a concrete zero-jitter
input. -/
theorem generate_group_answered_count_witness :
    answeredCount (callGroup (generate_all_call_data oTriv ["a"] 0 0 9 10 4 1) "a" 0)
      ≤ min 1 4 ∧
    ((callGroup (generate_all_call_data oTriv ["a"] 0 0 9 10 4 1) "a" 0).length = 4 →
      answeredCount (callGroup (generate_all_call_data oTriv ["a"] 0 0 9 10 4 1) "a" 0)
        = min 1 4) :=
  generate_group_answered_count oTriv ["a"] 0 0 9 10 4 1 0 (oTriv_valid le_rfl)
    (by norm_num) (by norm_num) (by decide) (by decide) "a" 0

/-- C8 counterexample: (a) with the duplicated phone entry list `["p", "p"]`
the generator draws a fresh lead id for each pass, so the ("p", day) pair
carries two different lead ids; (b) even with pairwise-distinct entries, a
legal jitter draw of -86400 on the second day pulls a record of that day
(drawn under a fresh lead id) back into the first calendar day. -/
theorem generate_leadId_unstable_cex :
    (Oracle.Valid oPerPhoneLead 0 ∧
      ∃ r1 ∈ generate_all_call_data oPerPhoneLead ["p", "p"] 0 0 9 11 2 0,
        ∃ r2 ∈ generate_all_call_data oPerPhoneLead ["p", "p"] 0 0 9 11 2 0,
          r1.phone = r2.phone ∧ calendarDay r1 = calendarDay r2 ∧
            r1.leadId ≠ r2.leadId) ∧
    (Oracle.Valid oDriftLead 86400 ∧
      ∃ r1 ∈ generate_all_call_data oDriftLead ["p"] 0 1 9 10 2 0,
        ∃ r2 ∈ generate_all_call_data oDriftLead ["p"] 0 1 9 10 2 0,
          r1.phone = r2.phone ∧ calendarDay r1 = calendarDay r2 ∧
            r1.leadId ≠ r2.leadId) :=
  ⟨⟨oPerPhoneLead_valid, by decide⟩, ⟨oDriftLead_valid, by decide⟩⟩

/-- C8 (amended): when the stripped nonblank phone entries are pairwise
distinct and `maxJitterSeconds ≤ uniformIntervalSeconds`, any two records of
the same (phoneLine, calendar day) pair carry the same lead id — it is drawn
once per pair before the pair's events are emitted. -/
theorem generate_leadId_stable (o : Oracle) (phones : List String)
    (sd ed bs be : ℤ) (total ans : ℕ) (jm : ℚ) (hv : o.Valid jm)
    (hbs : 0 ≤ bs) (hbe : be ≤ 24)
    (hdist : ∀ i j : Fin phones.length, pyStrip (phones.get i) ≠ "" →
      pyStrip (phones.get i) = pyStrip (phones.get j) → i = j)
    (hj : jm ≤ uniform_interval_seconds bs be total) :
    ∀ r1 ∈ generate_all_call_data o phones sd ed bs be total ans,
      ∀ r2 ∈ generate_all_call_data o phones sd ed bs be total ans,
        r1.phone = r2.phone → calendarDay r1 = calendarDay r2 →
          r1.leadId = r2.leadId := by
  intro r1 h1 r2 h2 hp hd
  have hm1 : r1 ∈ callGroup (generate_all_call_data o phones sd ed bs be total ans)
      r1.phone (calendarDay r1) := by
    rw [callGroup, List.mem_filter]
    exact ⟨h1, by simp⟩
  have hm2 : r2 ∈ callGroup (generate_all_call_data o phones sd ed bs be total ans)
      r1.phone (calendarDay r1) := by
    rw [callGroup, List.mem_filter]
    refine ⟨h2, ?_⟩
    simp [← hp, ← hd]
  rcases callGroup_eq_cases o phones sd ed bs be total ans hv hbs hbe hj hdist
      r1.phone (calendarDay r1) with hc | ⟨di, pi, p, _, _, _, _, hc⟩
  · rw [hc] at hm1
    simp at hm1
  · rw [hc] at hm1 hm2
    have e1 := (genPass_phone_lead o di pi (calendarDay r1) r1.phone
      bs be total ans r1 hm1).2
    have e2 := (genPass_phone_lead o di pi (calendarDay r1) r1.phone
      bs be total ans r2 hm2).2
    rw [e1, e2]

/-- C8 witness: lead-id stability at a concrete zero-jitter input, for the
first two emitted records (same phone line, same calendar day). -/
theorem generate_leadId_stable_witness :
    ((generate_all_call_data oTriv ["a"] 0 0 9 10 4 1).headI).leadId =
      (((generate_all_call_data oTriv ["a"] 0 0 9 10 4 1).drop 1).headI).leadId :=
  generate_leadId_stable oTriv ["a"] 0 0 9 10 4 1 0 (oTriv_valid le_rfl)
    (by norm_num) (by norm_num) (by decide) (by decide) _ (by decide) _ (by decide)
    (by decide) (by decide)

theorem list_eq_four {α : Type _} {l : List α} (h : l.length = 4) :
    ∃ a b c d, l = [a, b, c, d] := by
  rcases l with _ | ⟨a, _ | ⟨b, _ | ⟨c, _ | ⟨d, _ | ⟨e, t⟩⟩⟩⟩⟩
  · simp at h
  · simp at h
  · simp at h
  · simp at h
  · exact ⟨a, b, c, d, rfl⟩
  · simp at h

/-- C6: the example scenario — one phone line `"555-0100"`, the single day
2024-01-01 (day number 19723 since 1970-01-01), business hours 9-10, four
calls per day, one answered, zero jitter.  The uniform interval is
`3600 / 4 = 900` seconds; the fourth candidate cursor lands exactly on the
business-end instant and is dropped, so exactly three records are emitted, at
09:15:00, 09:30:00 and 09:45:00; the four-slot candidate multiset holds
exactly one Answered status, and any emitted Answered record has duration in
`[1, 14]`. -/
theorem example_scenario (o : Oracle) (hv : o.Valid 0) :
    uniform_interval_seconds 9 10 4 = 900 ∧
    dayStartTime 19723 9 + 4 * 900 = dayEndTime 19723 10 ∧
    (generate_all_call_data o ["555-0100"] 19723 19723 9 10 4 1).map
        (fun r => r.dateTime)
      = [19723 * 86400 + 33300, 19723 * 86400 + 34200, 19723 * 86400 + 35100] ∧
    List.count "Answered" (o.shuffle 0 0 (daily_statuses 4 1 (o.choice 0 0))) = 1 ∧
    ∀ r ∈ generate_all_call_data o ["555-0100"] 19723 19723 9 10 4 1,
      r.status = "Answered" → 1 ≤ r.length ∧ r.length ≤ 14 := by
  have hint : uniform_interval_seconds 9 10 4 = 900 := by decide
  have hS : dayStartTime 19723 9 = 1704099600 := by norm_num [dayStartTime]
  have hE : dayEndTime 19723 10 = 1704103200 := by norm_num [dayEndTime]
  have hj0 : ∀ k, o.jitter 0 0 k = 0 := by
    intro k
    have h := hv.2.2.2.1 0 0 k
    have h1 : (0 : ℚ) ≤ o.jitter 0 0 k := by
      have := h.1
      simpa using this
    exact le_antisymm h.2 h1
  have hgen : generate_all_call_data o ["555-0100"] 19723 19723 9 10 4 1
      = genPass o 0 0 19723 "555-0100" 9 10 4 1 := by
    have hdr : dayRange 19723 19723 = [19723] := by decide
    have hps : pyStrip "555-0100" = "555-0100" := by decide
    rw [generate_all_call_data, hdr]
    have henum : ([(19723 : ℤ)]).enum = [(0, (19723 : ℤ))] := by decide
    rw [henum]
    simp only [List.flatMap_cons, List.flatMap_nil, List.append_nil]
    rw [genDayBlock]
    have henum2 : (["555-0100"]).enum = [(0, "555-0100")] := by decide
    rw [henum2]
    simp only [List.flatMap_cons, List.flatMap_nil, List.append_nil]
    rw [genPhoneBlock]
    rw [if_neg (by decide)]
    rw [hps]
  obtain ⟨a, b, c, d, hl⟩ := list_eq_four
    (show (o.shuffle 0 0 (daily_statuses 4 1 (o.choice 0 0))).length = 4 by
      rw [(hv.2.1 0 0 _).length_eq, daily_statuses_length])
  have hmap : (genPass o 0 0 19723 "555-0100" 9 10 4 1).map (fun r => r.dateTime)
      = [1704100500, 1704101400, 1704102300] := by
    rw [genPass, hint, hS, hE, hl]
    norm_num [runSlots, hj0]
  refine ⟨hint, by norm_num [dayStartTime, dayEndTime], ?_, ?_, ?_⟩
  · rw [hgen, hmap]
    norm_num
  · rw [(hv.2.1 0 0 _).count_eq,
      daily_statuses_count 4 1 (o.choice 0 0) (fun k => hv.2.2.1 0 0 k)]
    decide
  · intro r hr
    rw [hgen, genPass] at hr
    exact (runSlots_duration (o.leadId 0 0) "555-0100" (dayEndTime 19723 10)
      (uniform_interval_seconds 9 10 4) (o.jitter 0 0) (o.duration 0 0)
      (hv.2.2.2.2 0 0) _ _ _ r hr).2

/-- C6 witness: the example scenario evaluated under a fixed zero-jitter
oracle. -/
theorem example_scenario_witness :
    uniform_interval_seconds 9 10 4 = 900 ∧
    dayStartTime 19723 9 + 4 * 900 = dayEndTime 19723 10 ∧
    (generate_all_call_data oTriv ["555-0100"] 19723 19723 9 10 4 1).map
        (fun r => r.dateTime)
      = [19723 * 86400 + 33300, 19723 * 86400 + 34200, 19723 * 86400 + 35100] ∧
    List.count "Answered" (oTriv.shuffle 0 0 (daily_statuses 4 1 (oTriv.choice 0 0))) = 1 ∧
    ∀ r ∈ generate_all_call_data oTriv ["555-0100"] 19723 19723 9 10 4 1,
      r.status = "Answered" → 1 ≤ r.length ∧ r.length ≤ 14 :=
  example_scenario oTriv (oTriv_valid le_rfl)

theorem rowStyle_y (b : Bool) (s : RState) : (rowStyle b s).y = s.y := by
  cases b <;> simp [rowStyle, headerStyle, dataStyle]

theorem rowStyle_page (b : Bool) (s : RState) : (rowStyle b s).page = s.page := by
  cases b <;> simp [rowStyle, headerStyle, dataStyle]

theorem plainLogs_breaks (s : RState) (l : List (String × ℚ)) :
    ((plainLogs s l).map CellLog.breaks).sum = 0 := by
  induction l with
  | nil => rfl
  | cons x xs ih =>
    simp only [plainLogs, List.map_cons, List.sum_cons] at ih ⊢
    rw [ih]
    simp [CellLog.breaks]

theorem plainLogs_mem (st : RState) (l : List (String × ℚ)) :
    ∀ cl ∈ plainLogs st l, cl.broke = false ∧ cl.headerCells = [] ∧
      cl.cell.page = st.page ∧ cl.cell.fill = st.fillColor ∧
      cl.cell.bold = st.fontBold ∧ cl.cell.color = st.textColor := by
  intro cl hcl
  obtain ⟨iw, _, heq⟩ := List.mem_map.mp hcl
  subst heq
  exact ⟨rfl, rfl, rfl, rfl, rfl, rfl⟩

theorem renderCellsGo_no_break (hdr : RState → RState × List CellLog) :
    ∀ (l : List (String × ℚ)) (s : RState), s.y ≤ 180 →
      renderCellsGo hdr l s = (s, plainLogs s l) := by
  intro l
  induction l with
  | nil =>
    intro s _
    simp [renderCellsGo, plainLogs]
  | cons x xs ih =>
    intro s h
    obtain ⟨item, w⟩ := x
    rw [renderCellsGo, if_neg (not_lt.mpr h)]
    simp only [ih s h, plainLogs, List.map_cons]

theorem renderCells_no_break (fuel : ℕ) (l : List (String × ℚ)) (s : RState)
    (h : s.y ≤ 180) : renderCells fuel l s = (s, plainLogs s l) := by
  cases fuel with
  | zero => rw [renderCells]; exact renderCellsGo_no_break _ l s h
  | succ fuel => rw [renderCells]; exact renderCellsGo_no_break _ l s h

theorem renderCells_break (fuel : ℕ) (item : String) (w : ℚ)
    (rest : List (String × ℚ)) (s : RState) (h : 180 < s.y) :
    renderCells (fuel + 1) ((item, w) :: rest) s =
      (⟨17, s.page + 1, (200, 220, 255), true, s.textColor⟩,
       { broke := true,
         headerCells :=
           (plainLogs ⟨10, s.page + 1, (200, 220, 255), true, s.textColor⟩
             (df_columns.zip col_widths)).map CellLog.cell,
         nestedBreaks := 0,
         cell := mkCell ⟨17, s.page + 1, (200, 220, 255), true, s.textColor⟩ item w } ::
       plainLogs ⟨17, s.page + 1, (200, 220, 255), true, s.textColor⟩ rest) := by
  rw [renderCells, renderCellsGo, if_pos h]
  have hhdr : (headerStyle { s with y := 10, page := s.page + 1 }) =
      (⟨10, s.page + 1, (200, 220, 255), true, s.textColor⟩ : RState) := by
    simp [headerStyle]
  dsimp only
  rw [hhdr]
  rw [renderCells_no_break fuel (df_columns.zip col_widths) _ (by norm_num)]
  dsimp only
  rw [renderCellsGo_no_break _ rest _ (by norm_num)]
  rw [plainLogs_breaks]
  norm_num

theorem print_row_no_break (fuel : ℕ) (data : List String) (b : Bool) (s : RState)
    (h : s.y ≤ 180) :
    print_row fuel data b s =
      ({ rowStyle b s with y := s.y + 7 },
       { isHeader := b, cellLogs := plainLogs (rowStyle b s) (data.zip col_widths) }) := by
  rw [print_row, renderCells_no_break fuel _ _ (by rw [rowStyle_y]; exact h)]
  simp only [rowStyle_y]

theorem print_row_break (item : String) (restData : List String) (s : RState)
    (h : 180 < s.y) :
    print_row 2 (item :: restData) false s =
      (⟨24, s.page + 1, (200, 220, 255), true, s.textColor⟩,
       { isHeader := false,
         cellLogs :=
           { broke := true,
             headerCells :=
               (plainLogs ⟨10, s.page + 1, (200, 220, 255), true, s.textColor⟩
                 (df_columns.zip col_widths)).map CellLog.cell,
             nestedBreaks := 0,
             cell := mkCell ⟨17, s.page + 1, (200, 220, 255), true, s.textColor⟩
               item 45 } ::
           plainLogs ⟨17, s.page + 1, (200, 220, 255), true, s.textColor⟩
             (restData.zip [20, 30, 30, 30, 45]) }) := by
  rw [print_row]
  have hzip : (item :: restData).zip col_widths
      = (item, 45) :: restData.zip [20, 30, 30, 30, 45] := by
    simp [col_widths]
  rw [hzip]
  have hsty : rowStyle false s = { s with fillColor := (255, 255, 255), fontBold := false } := by
    simp [rowStyle, dataStyle]
  rw [hsty]
  rw [renderCells_break 1 item 45 _ _ (by simpa using h)]
  simp only
  norm_num

theorem print_row_isHeader (fuel : ℕ) (data : List String) (b : Bool) (s : RState) :
    (print_row fuel data b s).2.isHeader = b := rfl

theorem plain_rowlog_breaks (b : Bool) (st : RState) (l : List (String × ℚ)) :
    RowLog.breaks { isHeader := b, cellLogs := plainLogs st l } = 0 := by
  rw [RowLog.breaks]
  exact plainLogs_breaks st l

theorem break_rowlog_breaks (b : Bool) (H : List Cell) (c : Cell) (st : RState)
    (l : List (String × ℚ)) :
    RowLog.breaks { isHeader := b,
                    cellLogs := (⟨true, H, 0, c⟩ : CellLog) :: plainLogs st l } = 1 := by
  rw [RowLog.breaks, List.map_cons, List.sum_cons, plainLogs_breaks]
  simp [CellLog.breaks]

theorem renderRows_isHeader (rows : List (List String)) :
    ∀ (s : RState), ∀ rl ∈ (renderRows rows s).2, rl.isHeader = false := by
  induction rows with
  | nil =>
    intro s rl hrl
    simp [renderRows] at hrl
  | cons row rest ih =>
    intro s rl hrl
    rw [renderRows] at hrl
    dsimp only at hrl
    rcases List.mem_cons.mp hrl with h | h
    · subst h
      exact print_row_isHeader 2 row false _
    · exact ih _ rl h

theorem renderRows_breaks_sum (rows : List (List String)) :
    ∀ (s : RState) (m : ℕ), m ≤ 24 → s.y = 17 + 7 * m →
      (∀ row ∈ rows, row ≠ []) →
      (((renderRows rows s).2).map RowLog.breaks).sum = (rows.length + m - 1) / 24 := by
  induction rows with
  | nil =>
    intro s m hm hy _
    rw [renderRows]
    simp only [List.length_nil]
    rw [Nat.div_eq_of_lt (by omega)]
    rfl
  | cons row rest ih =>
    intro s m hm hy hne
    rw [renderRows]
    dsimp only
    by_cases hm23 : m ≤ 23
    · have hyle : s.y ≤ 180 := by
        rw [hy]
        have hq : (m : ℚ) ≤ 23 := by exact_mod_cast hm23
        linarith
      rw [print_row_no_break 2 row false _ (by exact hyle)]
      dsimp only
      rw [List.map_cons, List.sum_cons, plain_rowlog_breaks]
      rw [ih _ (m + 1) (by omega) ?hy2 (fun r hr => hne r (List.mem_cons_of_mem _ hr))]
      case hy2 =>
        rw [hy]
        push_cast
        ring
      rw [zero_add]
      simp only [List.length_cons]
      congr 1
      omega
    · have hm24 : m = 24 := by omega
      subst hm24
      have hygt : 180 < s.y := by
        rw [hy]
        norm_num
      rcases row with _ | ⟨item, restData⟩
      · exact absurd rfl (hne [] (List.mem_cons_self _ _))
      rw [print_row_break item restData _ (by exact hygt)]
      dsimp only
      rw [List.map_cons, List.sum_cons, break_rowlog_breaks]
      rw [ih _ 1 (by omega) (by norm_num)
        (fun r hr => hne r (List.mem_cons_of_mem _ hr))]
      simp only [List.length_cons]
      have h2 : rest.length + 1 - 1 = rest.length := by omega
      have h3 : rest.length + 1 + 24 - 1 = rest.length + 24 := by omega
      rw [h2, h3, Nat.add_div_right _ (by norm_num)]
      exact Nat.add_comm 1 _

theorem headerEmissions_cons_data (rows : List (List String)) (st : RState)
    (rl0 : RowLog) (h0 : rl0.isHeader = true) (hb0 : RowLog.breaks rl0 = 0)
    (m : ℕ) (hm : m ≤ 24) (hy : st.y = 17 + 7 * m)
    (hne : ∀ row ∈ rows, row ≠ []) :
    headerEmissions (rl0 :: (renderRows rows st).2) = 1 + (rows.length + m - 1) / 24 := by
  rw [headerEmissions, List.filter_cons, List.map_cons, List.sum_cons, hb0]
  rw [if_pos (by rw [h0])]
  have hfd : (renderRows rows st).2.filter (fun rl => rl.isHeader) = [] :=
    List.filter_eq_nil_iff.mpr
      (fun rl hrl => by simp [renderRows_isHeader rows st rl hrl])
  rw [hfd, renderRows_breaks_sum rows st m hm hy hne]
  simp

/-- C4 (amended): rendering N records (each row has at least one cell)
emits the header row exactly `1 + floor((N - 1) / 24)` times: every page
holds the header plus up to 24 data rows — the 25 seven-millimetre row slots
between the 10 mm top margin and the 180 mm break threshold, less the slot
the header itself occupies — so the repaint count is governed by 24 data rows
per page, not by `1 + floor(N / rowsPerPage)`. -/
theorem create_pdf_header_emissions (rows : List (List String))
    (hne : ∀ row ∈ rows, row ≠ []) :
    headerEmissions (create_pdf_bytes rows).2 = 1 + (rows.length - 1) / 24 := by
  rw [create_pdf_bytes]
  dsimp only
  rw [print_row_no_break 2 df_columns true _ (by norm_num)]
  dsimp only
  rw [headerEmissions_cons_data rows _ _ rfl (plain_rowlog_breaks _ _ _) 0
    (by omega) (by norm_num) hne]
  norm_num

/-- C4 witness: a single record gives one header emission. -/
theorem create_pdf_header_emissions_witness :
    headerEmissions (create_pdf_bytes [testRow]).2 = 1 + ([testRow].length - 1) / 24 :=
  create_pdf_header_emissions [testRow] (by decide)

/-- C4 counterexample: the header-emission count is not `1 + floor(N /
rowsPerPage)` for either reading of rowsPerPage.  25 row slots fit between the
top margin and the threshold (`10 + 7k ≤ 180` for `k ≤ 24`): with
`rowsPerPage = 25` the formula gives 2 for N = 49 but the renderer emits 3
headers; with `rowsPerPage = 24` (rows fully above the threshold) it gives 2
for N = 24 but the renderer emits 1. -/
theorem create_pdf_header_emissions_cex :
    headerEmissions (create_pdf_bytes (List.replicate 49 testRow)).2 = 3 ∧
    3 ≠ 1 + 49 / 25 ∧
    headerEmissions (create_pdf_bytes (List.replicate 24 testRow)).2 = 1 ∧
    1 ≠ 1 + 24 / 24 := by
  refine ⟨by decide, by decide, by decide, by decide⟩

theorem renderCells_nil (fuel : ℕ) (s : RState) : renderCells fuel [] s = (s, []) := by
  cases fuel with
  | zero => rw [renderCells, renderCellsGo]
  | succ fuel => rw [renderCells, renderCellsGo]

theorem print_row_plain_ok (fuel : ℕ) (data : List String) (b : Bool) (s : RState)
    (h : s.y ≤ 180) :
    (∀ cl1 ∈ (print_row fuel data b s).2.cellLogs,
      ∀ cl2 ∈ (print_row fuel data b s).2.cellLogs, cl1.cell.page = cl2.cell.page) ∧
    (∀ cl ∈ (print_row fuel data b s).2.cellLogs.tail, cl.broke = false) ∧
    (∀ cl ∈ (print_row fuel data b s).2.cellLogs, cl.broke = true →
      cl.headerCells.length = df_columns.length ∧
      ∀ hc ∈ cl.headerCells, hc.page = cl.cell.page) := by
  rw [print_row_no_break fuel data b s h]
  dsimp only
  refine ⟨?_, ?_, ?_⟩
  · intro cl1 h1 cl2 h2
    rw [(plainLogs_mem _ _ cl1 h1).2.2.1, (plainLogs_mem _ _ cl2 h2).2.2.1]
  · intro cl hcl
    exact (plainLogs_mem _ _ cl (List.mem_of_mem_tail hcl)).1
  · intro cl hcl hb
    rw [(plainLogs_mem _ _ cl hcl).1] at hb
    exact absurd hb (by simp)

theorem print_row_data_ok (row : List String) (s : RState) :
    (∀ cl1 ∈ (print_row 2 row false s).2.cellLogs,
      ∀ cl2 ∈ (print_row 2 row false s).2.cellLogs, cl1.cell.page = cl2.cell.page) ∧
    (∀ cl ∈ (print_row 2 row false s).2.cellLogs.tail, cl.broke = false) ∧
    (∀ cl ∈ (print_row 2 row false s).2.cellLogs, cl.broke = true →
      cl.headerCells.length = df_columns.length ∧
      ∀ hc ∈ cl.headerCells, hc.page = cl.cell.page) := by
  rcases row with _ | ⟨item, restData⟩
  · have hl : (print_row 2 ([] : List String) false s).2.cellLogs = [] := by
      rw [print_row]
      dsimp only
      have hz : ([] : List String).zip col_widths = [] := rfl
      rw [hz, renderCells_nil]
    rw [hl]
    refine ⟨?_, ?_, ?_⟩ <;> intro cl hcl <;> simp at hcl
  · by_cases hy : (180 : ℚ) < s.y
    · rw [print_row_break item restData s hy]
      dsimp only
      have hpage : ∀ cl ∈
          ({ broke := true,
             headerCells :=
               (plainLogs ⟨10, s.page + 1, (200, 220, 255), true, s.textColor⟩
                 (df_columns.zip col_widths)).map CellLog.cell,
             nestedBreaks := 0,
             cell := mkCell ⟨17, s.page + 1, (200, 220, 255), true, s.textColor⟩
               item 45 } :: plainLogs ⟨17, s.page + 1, (200, 220, 255), true, s.textColor⟩
               (restData.zip [20, 30, 30, 30, 45]) : List CellLog),
          cl.cell.page = s.page + 1 := by
        intro cl hcl
        rcases List.mem_cons.mp hcl with h | h
        · subst h
          rfl
        · exact (plainLogs_mem _ _ cl h).2.2.1
      refine ⟨?_, ?_, ?_⟩
      · intro cl1 h1 cl2 h2
        rw [hpage cl1 h1, hpage cl2 h2]
      · intro cl hcl
        exact (plainLogs_mem _ _ cl hcl).1
      · intro cl hcl hb
        rcases List.mem_cons.mp hcl with h | h
        · subst h
          constructor
          · simp [plainLogs, df_columns, col_widths]
          · intro hc hhc
            obtain ⟨cl', hcl', heq⟩ := List.mem_map.mp hhc
            subst heq
            rw [(plainLogs_mem _ _ cl' hcl').2.2.1]
            rfl
        · rw [(plainLogs_mem _ _ cl h).1] at hb
          simp at hb
    · exact print_row_plain_ok 2 (item :: restData) false s (not_lt.mp hy)

theorem renderRows_mem_print (rows : List (List String)) :
    ∀ (s : RState), ∀ rl ∈ (renderRows rows s).2,
      ∃ row s', rl = (print_row 2 row false s').2 := by
  induction rows with
  | nil =>
    intro s rl hrl
    simp [renderRows] at hrl
  | cons row rest ih =>
    intro s rl hrl
    rw [renderRows] at hrl
    dsimp only at hrl
    rcases List.mem_cons.mp hrl with h | h
    · exact ⟨row, _, h⟩
    · exact ih _ rl h

/-- C5: pagination never splits a row.  For every row printed by
`create_pdf_bytes`: all its cells land on one page; the page-break check can
fire only before the row's first cell (every later cell log has
`broke = false`); and when it fires, a full header row (one cell per column)
is re-emitted on the new page — the same page that then receives all of the
row's own cells. -/
theorem create_pdf_no_row_split (rows : List (List String)) :
    ∀ rl ∈ (create_pdf_bytes rows).2,
      (∀ cl1 ∈ rl.cellLogs, ∀ cl2 ∈ rl.cellLogs, cl1.cell.page = cl2.cell.page) ∧
      (∀ cl ∈ rl.cellLogs.tail, cl.broke = false) ∧
      (∀ cl ∈ rl.cellLogs, cl.broke = true →
        cl.headerCells.length = df_columns.length ∧
        ∀ hc ∈ cl.headerCells, hc.page = cl.cell.page) := by
  intro rl hrl
  rw [create_pdf_bytes] at hrl
  dsimp only at hrl
  rcases List.mem_cons.mp hrl with h | h
  · subst h
    exact print_row_plain_ok 2 df_columns true _ (by norm_num)
  · obtain ⟨row, s', heq⟩ := renderRows_mem_print rows _ rl h
    subst heq
    exact print_row_data_ok row s'

/-- C5 witness: the property at a concrete one-record rendering. -/
theorem create_pdf_no_row_split_witness :
    (∀ cl1 ∈ ((create_pdf_bytes [testRow]).2.headI).cellLogs,
      ∀ cl2 ∈ ((create_pdf_bytes [testRow]).2.headI).cellLogs,
        cl1.cell.page = cl2.cell.page) ∧
    (∀ cl ∈ ((create_pdf_bytes [testRow]).2.headI).cellLogs.tail, cl.broke = false) ∧
    (∀ cl ∈ ((create_pdf_bytes [testRow]).2.headI).cellLogs, cl.broke = true →
      cl.headerCells.length = df_columns.length ∧
      ∀ hc ∈ cl.headerCells, hc.page = cl.cell.page) :=
  create_pdf_no_row_split [testRow] ((create_pdf_bytes [testRow]).2.headI) (by decide)

/-- C10: the styling leak on a page break.  When printing a data row whose
row-start position is past the break threshold, the re-emitted header leaves
its own fill colour `(200, 220, 255)` and bold font active, so every cell of
that data row is drawn with header styling instead of the white/regular data
styling; the header's own cells are drawn in the triggering row's current
text colour — green `(0, 100, 0)` exactly when the row's status cell is
`"Answered"`, black otherwise — and no styling state is restored before the
data cells continue. -/
theorem renderRows_break_styling_leak (row : List String) (rest : List (List String))
    (s : RState) (hne : row ≠ []) (h : 180 < s.y) :
    ((renderRows (row :: rest) s).2.headI).cellLogs ≠ [] ∧
    (((renderRows (row :: rest) s).2.headI).cellLogs.headI).broke = true ∧
    (∀ cl ∈ ((renderRows (row :: rest) s).2.headI).cellLogs,
      cl.cell.fill = (200, 220, 255) ∧ cl.cell.bold = true ∧
      cl.cell.color = (if row.get? 3 = some "Answered" then (0, 100, 0) else (0, 0, 0))) ∧
    (∀ hc ∈ (((renderRows (row :: rest) s).2.headI).cellLogs.headI).headerCells,
      hc.fill = (200, 220, 255) ∧ hc.bold = true ∧
      hc.color = (if row.get? 3 = some "Answered" then (0, 100, 0) else (0, 0, 0))) := by
  rcases row with _ | ⟨item, restData⟩
  · exact absurd rfl hne
  rw [renderRows]
  dsimp only
  rw [print_row_break item restData _ (by exact h)]
  dsimp only [List.headI]
  refine ⟨by simp, rfl, ?_, ?_⟩
  · intro cl hcl
    rcases List.mem_cons.mp hcl with hh | hh
    · subst hh
      exact ⟨rfl, rfl, rfl⟩
    · have hm := plainLogs_mem _ _ cl hh
      exact ⟨hm.2.2.2.1, hm.2.2.2.2.1, hm.2.2.2.2.2⟩
  · intro hc hhc
    obtain ⟨cl', hcl', heq⟩ := List.mem_map.mp hhc
    subst heq
    have hm := plainLogs_mem _ _ cl' hcl'
    exact ⟨hm.2.2.2.1, hm.2.2.2.2.1, hm.2.2.2.2.2⟩

/-- C10 witness: a concrete data row at `y = 185` (past the threshold) with
Answered status, drawn after a break with header fill, bold font and green
text. -/
theorem renderRows_break_styling_leak_witness :
    ((renderRows [testRow] ⟨185, 1, (255, 255, 255), false, (0, 0, 0)⟩).2.headI).cellLogs ≠ [] ∧
    (((renderRows [testRow] ⟨185, 1, (255, 255, 255), false, (0, 0, 0)⟩).2.headI).cellLogs.headI).broke = true ∧
    (∀ cl ∈ ((renderRows [testRow] ⟨185, 1, (255, 255, 255), false, (0, 0, 0)⟩).2.headI).cellLogs,
      cl.cell.fill = (200, 220, 255) ∧ cl.cell.bold = true ∧
      cl.cell.color = (if testRow.get? 3 = some "Answered" then (0, 100, 0) else (0, 0, 0))) ∧
    (∀ hc ∈ (((renderRows [testRow] ⟨185, 1, (255, 255, 255), false, (0, 0, 0)⟩).2.headI).cellLogs.headI).headerCells,
      hc.fill = (200, 220, 255) ∧ hc.bold = true ∧
      hc.color = (if testRow.get? 3 = some "Answered" then (0, 100, 0) else (0, 0, 0))) :=
  renderRows_break_styling_leak testRow [] ⟨185, 1, (255, 255, 255), false, (0, 0, 0)⟩
    (by decide) (by norm_num)
